import Mathlib

/-!
Shallow embedding of the copychat core scanner (`src/copychat/core.py`):
path model, filesystem model, gitignore discovery and spec building,
git-diff retrieval, the diff-mode content engine, and the directory
scanner, together with theorems settling the specification claims.
-/

/-- An absolute filesystem path, as its list of components from the
filesystem root; `[]` is the root directory itself. -/
abbrev FsPath := List String

/-- The `Path.parent` of pathlib: drop the last component; the root is its
own parent. -/
def parentDir (p : FsPath) : FsPath := p.dropLast

/-- The last component of a path (`Path.name`); empty for the root. -/
def pathName (p : FsPath) : String := p.getLastD ""

/-- The `PurePath.suffix` of pathlib on a file name: the extension from the
last dot (inclusive), empty when the name has no dot, starts with its
only dot, or ends with the dot. -/
def nameSuffix (name : String) : String :=
  let cs := name.toList
  match ((List.range cs.length).filter (fun i => cs.getD i ' ' = '.')).getLast? with
  | none => ""
  | some i => if 0 < i ∧ i + 1 < cs.length then String.mk (cs.drop i) else ""

/-- The `Path.suffix` applied to a path's final component. -/
def pathSuffix (p : FsPath) : String := nameSuffix (pathName p)

/-- Python `str.lstrip "."`: remove every leading dot. -/
def lstripDots (s : String) : String := String.mk (s.toList.dropWhile (fun c => c = '.'))

/-- Python's default whitespace set for `str.strip`. -/
def isPySpace (ch : Char) : Bool :=
  ch = ' ' ∨ ch = '\t' ∨ ch = '\n' ∨ ch = '\r' ∨ ch = '\x0b' ∨ ch = '\x0c'

/-- Python `str.strip()`: drop whitespace from both ends. -/
def stripChars (cs : List Char) : List Char :=
  ((cs.dropWhile isPySpace).reverse.dropWhile isPySpace).reverse

/-- Split a character list at every occurrence of the separator. -/
def splitOnChar (c : Char) : List Char → List (List Char)
  | [] => [[]]
  | x :: xs =>
    match splitOnChar c xs with
    | [] => [[]]
    | r :: rs => if x = c then [] :: r :: rs else (x :: r) :: rs

/-- Python `str.startswith "#"` on a character list. -/
def startsWithHash : List Char → Bool
  | '#' :: _ => true
  | _ => false

/-- Python `str.lower()`. -/
def toLowerStr (s : String) : String := String.mk (s.toList.map Char.toLower)

/-- Split a string on slashes into its segments. -/
def splitSlash (s : String) : List String := (splitOnChar '/' s.toList).map String.mk

/-- Render a root-relative path the way `str(rel_path)` does: components
joined with slashes. -/
def pathStr (p : FsPath) : String := String.intercalate "/" p

/-- The `Path.relative_to`: strip `base` off the front of `p`, or fail (the
`ValueError` branch) when `base` is not a prefix of `p`. -/
def relativeTo (p base : FsPath) : Option FsPath :=
  if base.isPrefixOf p then some (p.drop base.length) else none

/-- A finite filesystem snapshot: regular files with their text, and
directories. -/
structure FS where
  files : List (FsPath × String)
  dirs : List FsPath

/-- The `Path.is_file` against the snapshot. -/
def FS.isFile (fs : FS) (p : FsPath) : Bool := fs.files.any (fun e => e.1 = p)

/-- The `Path.is_dir` against the snapshot. -/
def FS.isDir (fs : FS) (p : FsPath) : Bool := fs.dirs.any (fun d => d = p)

/-- The `Path.read_text` against the snapshot (empty for a missing file). -/
def FS.readText (fs : FS) (p : FsPath) : String :=
  ((fs.files.find? (fun e => e.1 = p)).map (fun e => e.2)).getD ""

/-- The `Path.rglob "*"`: every file or directory entry strictly below the
given root, in snapshot order. -/
def FS.entriesUnder (fs : FS) (root : FsPath) : List FsPath :=
  (fs.files.map (fun e => e.1) ++ fs.dirs).filter
    (fun q => root.isPrefixOf q && q ≠ root)

/-- The four diff modes of `DiffMode` in core.py. -/
inductive DiffMode where
  | full
  | full_with_diff
  | changed_with_diff
  | diff_only
deriving DecidableEq

/-- Outcome of one `subprocess.run(["git", "diff", path], check=True)`
invocation: normal exit with captured stdout, non-zero exit
(`CalledProcessError`), or the git binary being absent
(`FileNotFoundError`). -/
inductive GitOutcome where
  | ok (stdout : String)
  | calledProcessError
  | binaryMissing
deriving DecidableEq

/-- The git environment: what the diff subprocess does for each path. -/
structure GitEnv where
  run : FsPath → GitOutcome

/-- Python exceptions that can escape the core functions. -/
inductive PyError where
  | fileNotFoundError
  | valueError (msg : String)
deriving DecidableEq

/-- The `get_git_diff` (core.py lines 74-87): run `git diff path`; a
`CalledProcessError` is caught and becomes the empty string, while a
`FileNotFoundError` from a missing binary is not caught and
propagates. -/
def get_git_diff (env : GitEnv) (path : FsPath) : Except PyError String :=
  match env.run path with
  | .ok out => .ok out
  | .calledProcessError => .ok ""
  | .binaryMissing => .error .fileNotFoundError

/-- The `get_file_content` (core.py lines 90-111): content selection by diff
mode; `none` means the file is skipped. -/
def get_file_content (fs : FS) (env : GitEnv) (path : FsPath) (diff_mode : DiffMode) :
    Except PyError (Option String) :=
  if diff_mode = .full then .ok (some (fs.readText path))
  else do
    let diff ← get_git_diff env path
    if diff = "" ∧ (diff_mode = .changed_with_diff ∨ diff_mode = .diff_only) then
      .ok none
    else if diff_mode = .diff_only then
      .ok (some diff)
    else
      let content := fs.readText path
      .ok (some (if diff ≠ "" then content ++ "\n\nDiff:\n" ++ diff else content))

/-- The `find_gitignore` (core.py lines 18-29): walk upward from the start
path; while the current directory differs from its parent, return
`current/.gitignore` when that is a file, else move to the parent. -/
def find_gitignore (fs : FS) (current : FsPath) : Option FsPath :=
  if h : parentDir current = current then none
  else if fs.isFile (current ++ [".gitignore"]) then some (current ++ [".gitignore"])
  else find_gitignore fs (parentDir current)
termination_by current.length
decreasing_by
  have hne : current ≠ [] := by
    intro hnil
    exact h (by simp [parentDir, hnil])
  simp only [parentDir, List.length_dropLast]
  have : 0 < current.length := List.length_pos.mpr hne
  omega

/-- The loop of `find_gitignore` with an explicit iteration budget:
`none` means the budget ran out with the loop still running, `some r`
means the loop finished with result `r`. -/
def find_gitignore_fuel (fs : FS) : Nat → FsPath → Option (Option FsPath)
  | 0, _ => none
  | fuel + 1, current =>
    if parentDir current = current then some none
    else if fs.isFile (current ++ [".gitignore"]) then some (some (current ++ [".gitignore"]))
    else find_gitignore_fuel fs fuel (parentDir current)

/-- The directories `find_gitignore` examines, nearest first: the start
directory and every proper ancestor strictly below the filesystem
root. -/
def ancestorsBelowRoot (p : FsPath) : List FsPath :=
  if h : parentDir p = p then []
  else p :: ancestorsBelowRoot (parentDir p)
termination_by p.length
decreasing_by
  have hne : p ≠ [] := by
    intro hnil
    exact h (by simp [parentDir, hnil])
  simp only [parentDir, List.length_dropLast]
  have : 0 < p.length := List.length_pos.mpr hne
  omega

/-- The gitignore line filter (core.py lines 59-61): keep the stripped
form of every line that strips to something non-empty and does not start
(unstripped) with `#`, preserving file order. -/
def gitignoreLines (content : String) : List String :=
  (splitOnChar '\n' content.toList).filterMap (fun line =>
    let s := stripChars line
    if s ≠ [] ∧ ¬ startsWithHash line then some (String.mk s) else none)

/-- The static configuration from `patterns.py` (default excluded glob
patterns, excluded directory names, default extensions), carried as a
parameter because only its shape matters here. -/
structure PatternRegistry where
  excluded_patterns : List String
  excluded_dirs : List String
  default_extensions : List String

/-- The `get_gitignore_spec` (core.py lines 32-71), as the ordered pattern
list handed to `pathspec.PathSpec.from_lines`: default patterns, then
directory patterns with a trailing slash, then caller extras, then —
only when `verbose` is true, since line 56 reads
`find_gitignore(path) if verbose else None` — the filtered lines of the
nearest `.gitignore`. -/
def get_gitignore_spec (reg : PatternRegistry) (fs : FS) (path : FsPath)
    (extra_patterns : List String) (verbose : Bool) : List String :=
  let patterns := reg.excluded_patterns
  let patterns := patterns ++ reg.excluded_dirs.map (fun d => d ++ "/")
  let patterns := patterns ++ extra_patterns
  let gitignore_path := if verbose then find_gitignore fs path else none
  match gitignore_path with
  | some gp => patterns ++ gitignoreLines (fs.readText gp)
  | none => patterns

/-- The scanner's environment: the filesystem, the git subprocess, and
the compiled-pathspec matcher (`PathSpec.match_file`), abstract over the
pathspec library's matching semantics. -/
structure ScanEnv where
  fs : FS
  git : GitEnv
  matchFile : List String → String → Bool

/-- The include-set normalization of core.py line 149: defaults when the
caller supplied nothing, each extension as `.` plus its dot-stripped
form. -/
def normalizeInclude (reg : PatternRegistry) (include_exts : List String) : List String :=
  (if include_exts = [] then reg.default_extensions else include_exts).map
    (fun e => "." ++ lstripDots e)

/-- The per-entry loop of `scan_directory` (core.py lines 164-197): skip
non-files, entries outside the root, spec matches and extension misses;
otherwise resolve content and keep the entry when content is present. -/
def scanFiles (env : ScanEnv) (abs_path : FsPath) (include_set spec : List String)
    (diff_mode : DiffMode) : List FsPath → Except PyError (List (FsPath × Option String))
  | [] => .ok []
  | fp :: rest =>
    if ¬ env.fs.isFile fp then scanFiles env abs_path include_set spec diff_mode rest
    else
      match relativeTo fp abs_path with
      | none => scanFiles env abs_path include_set spec diff_mode rest
      | some rel =>
        if env.matchFile spec (pathStr rel) then
          scanFiles env abs_path include_set spec diff_mode rest
        else if ¬ include_set.contains (toLowerStr (pathSuffix fp)) then
          scanFiles env abs_path include_set spec diff_mode rest
        else do
          let content ← get_file_content env.fs env.git fp diff_mode
          let tail ← scanFiles env abs_path include_set spec diff_mode rest
          match content with
          | some c => .ok ((fp, some c) :: tail)
          | none => .ok tail

/-- The `scan_directory` (core.py lines 114-204): the single-file branch
applies only the raw include filter and maps the path to `None`; the
directory branch raises `ValueError` for a non-directory, builds the
include set and exclusion spec, and runs the per-entry loop. -/
def scan_directory (reg : PatternRegistry) (env : ScanEnv) (path : FsPath)
    (include_exts exclude_patterns : List String) (diff_mode : DiffMode)
    (verbose : Bool) : Except PyError (List (FsPath × Option String)) :=
  if env.fs.isFile path then
    if include_exts ≠ [] ∧ ¬ include_exts.contains (lstripDots (pathSuffix path)) then
      .ok []
    else
      .ok [(path, none)]
  else
    let abs_path := path
    if ¬ env.fs.isDir abs_path then
      .error (.valueError ("Path /" ++ pathStr abs_path ++ " is not a directory"))
    else
      let include_set := normalizeInclude reg include_exts
      let spec := get_gitignore_spec reg env.fs abs_path exclude_patterns verbose
      scanFiles env abs_path include_set spec diff_mode (env.fs.entriesUnder abs_path)

/-- Modelled from the spec: `is_glob_pattern` is absent from src (only
tests/test_core.py imports it from copychat.core); per §4.3 a string is
a glob pattern when it contains a glob wildcard character. -/
def is_glob_pattern (path : String) : Bool :=
  path.toList.any (fun c => c = '*' ∨ c = '?' ∨ c = '[')

/-- Modelled from the spec: one glob segment against one path component
(`*` any substring, `?` any single character, else literal). -/
def globSegMatch : List Char → List Char → Bool
  | [], [] => true
  | '*' :: ps, [] => globSegMatch ps []
  | '*' :: ps, c :: cs => globSegMatch ps (c :: cs) || globSegMatch ('*' :: ps) cs
  | '?' :: ps, _ :: cs => globSegMatch ps cs
  | p :: ps, c :: cs => p = c && globSegMatch ps cs
  | _ :: _, [] => false
  | [], _ :: _ => false
termination_by pat s => pat.length + s.length

/-- Modelled from the spec: recursive glob over path components, with
`**` matching any number (including zero) of leading components. -/
def globPathMatch : List String → List String → Bool
  | [], [] => true
  | "**" :: ps, segs =>
    globPathMatch ps segs ||
      (match segs with
       | [] => false
       | _ :: rest => globPathMatch ("**" :: ps) rest)
  | p :: ps, s :: rest => globSegMatch p.toList s.toList && globPathMatch ps rest
  | _ :: _, [] => false
  | [], _ :: _ => false
termination_by pat segs => pat.length + segs.length

/-- Modelled from the spec: expand one glob pattern by recursive
matching rooted at `base`, keeping every matching file or directory in
enumeration order. -/
def globExpand (fs : FS) (base : FsPath) (pattern : String) : List FsPath :=
  (fs.entriesUnder base).filter
    (fun q => globPathMatch (splitSlash pattern) (q.drop base.length))

/-- Modelled from the spec: `resolve_paths` is absent from src (only
tests/test_core.py imports it from copychat.core); per §4.3 each
wildcard input is glob-expanded rooted at `base` and each literal input
contributes `base / path` without existence checking, in input order,
without deduplication. -/
def resolve_paths (fs : FS) (paths : List String) (base : FsPath) : List FsPath :=
  paths.flatMap (fun s =>
    if is_glob_pattern s then globExpand fs base s else [base ++ splitSlash s])

/-! ### Concrete fixtures used by witnesses and counterexamples -/

/-- A small pattern registry. -/
def regW : PatternRegistry := ⟨["*.pyc"], ["node_modules"], ["py"]⟩

/-- A small filesystem: `/r/a.py`, `/r/.gitignore`, `/r/sub/b.txt`. -/
def fsW : FS :=
  ⟨[(["r", "a.py"], "print(1)"),
    (["r", ".gitignore"], "*.log\n\n# c\nbuild/\n"),
    (["r", "sub", "b.txt"], "t")],
   [[], ["r"], ["r", "sub"]]⟩

/-- A git subprocess that always succeeds with empty output. -/
def gitOkEmpty : GitEnv := ⟨fun _ => .ok ""⟩

/-- A git subprocess that always reports a non-empty diff. -/
def gitOkDiff : GitEnv := ⟨fun _ => .ok "DIFF"⟩

/-- An environment in which the git binary is absent. -/
def gitMissing : GitEnv := ⟨fun _ => .binaryMissing⟩

/-- A scan environment over `fsW` whose compiled spec matches nothing. -/
def envW : ScanEnv := ⟨fsW, gitOkEmpty, fun _ _ => false⟩

/-! ### Claims C3, C4, C5: the diff-mode engine and diff retrieval -/

/-- Claim C3: `get_file_content` is a pure function of the file's text,
the git outcome for the path, and the mode; in mode `full` the output is
the full text for every git environment (the diff is never consulted,
even one whose invocation would raise); in mode `diff-only`, given diff
text `d`, the output is absent exactly when `d` is empty and otherwise
is exactly `d`. -/
theorem get_file_content_full_and_diff_only :
    (∀ (fs₁ fs₂ : FS) (env₁ env₂ : GitEnv) (p₁ p₂ : FsPath) (m : DiffMode),
        fs₁.readText p₁ = fs₂.readText p₂ → env₁.run p₁ = env₂.run p₂ →
        get_file_content fs₁ env₁ p₁ m = get_file_content fs₂ env₂ p₂ m)
    ∧ (∀ (fs : FS) (env : GitEnv) (p : FsPath),
        get_file_content fs env p .full = .ok (some (fs.readText p)))
    ∧ (∀ (fs : FS) (env : GitEnv) (p : FsPath) (d : String), env.run p = .ok d →
        get_file_content fs env p .diff_only = .ok (if d = "" then none else some d)) := by
  refine ⟨?_, ?_, ?_⟩
  · intro fs₁ fs₂ env₁ env₂ p₁ p₂ m hc hr
    simp only [get_file_content, get_git_diff, hc, hr]
  · intro fs env p
    simp [get_file_content]
  · intro fs env p d h
    by_cases hd : d = "" <;>
      simp [get_file_content, get_git_diff, h, hd, Except.instMonad, Except.bind]

/-- Witness for claim C3 at a concrete file and diff. -/
theorem get_file_content_full_and_diff_only_witness :
    get_file_content fsW gitOkDiff ["r", "a.py"] DiffMode.diff_only =
      Except.ok (if "DIFF" = "" then none else some "DIFF") :=
  get_file_content_full_and_diff_only.2.2 fsW gitOkDiff ["r", "a.py"] "DIFF" rfl

/-- Claim C4: with diff text `d` available, mode `full-with-diff` always
yields present content — the full text when `d` is empty, and the full
text, a blank-line separator, a `Diff:` heading and `d` when `d` is
non-empty — and mode `changed-with-diff` yields that same combined text
when `d` is non-empty and absence when `d` is empty. -/
theorem get_file_content_with_diff_modes (fs : FS) (env : GitEnv) (p : FsPath) (d : String)
    (h : env.run p = .ok d) :
    get_file_content fs env p .full_with_diff =
      .ok (some (if d = "" then fs.readText p else fs.readText p ++ "\n\nDiff:\n" ++ d))
    ∧ get_file_content fs env p .changed_with_diff =
      .ok (if d = "" then none else some (fs.readText p ++ "\n\nDiff:\n" ++ d))
    ∧ ∃ s, get_file_content fs env p .full_with_diff = .ok (some s) := by
  refine ⟨?_, ?_, ?_⟩
  · by_cases hd : d = "" <;>
      simp [get_file_content, get_git_diff, h, hd, Except.instMonad, Except.bind]
  · by_cases hd : d = "" <;>
      simp [get_file_content, get_git_diff, h, hd, Except.instMonad, Except.bind]
  · by_cases hd : d = "" <;>
      simp [get_file_content, get_git_diff, h, hd, Except.instMonad, Except.bind]

/-- Witness for claim C4 at a concrete file and non-empty diff. -/
theorem get_file_content_with_diff_modes_witness :
    get_file_content fsW gitOkDiff ["r", "a.py"] DiffMode.full_with_diff =
      Except.ok (some (if "DIFF" = "" then fsW.readText ["r", "a.py"]
        else fsW.readText ["r", "a.py"] ++ "\n\nDiff:\n" ++ "DIFF")) :=
  (get_file_content_with_diff_modes fsW gitOkDiff ["r", "a.py"] "DIFF" rfl).1

/-- Counterexample to claim C5: when the git binary is absent the
subprocess raises `FileNotFoundError`, which `get_git_diff` does not
catch — it propagates instead of returning the empty string. -/
theorem get_git_diff_raises_on_missing_binary :
    get_git_diff gitMissing ["r", "a.py"] ≠ Except.ok ""
    ∧ get_git_diff gitMissing ["r", "a.py"] = Except.error PyError.fileNotFoundError := by
  exact ⟨by simp [get_git_diff, gitMissing], rfl⟩

/-- Claim C5 as amended: whenever the git invocation itself returns (the
binary is present), `get_git_diff` never raises: a non-zero exit and a
successful run with empty output both yield the empty string, and the
result is always a returned string. -/
theorem get_git_diff_degrades (env : GitEnv) (p : FsPath)
    (h : env.run p ≠ .binaryMissing) :
    (env.run p = .calledProcessError → get_git_diff env p = .ok "")
    ∧ (env.run p = .ok "" → get_git_diff env p = .ok "")
    ∧ ∃ s, get_git_diff env p = .ok s := by
  unfold get_git_diff
  cases henv : env.run p <;> simp_all

/-- Witness for the amended claim C5 at a concrete environment. -/
theorem get_git_diff_degrades_witness :
    get_git_diff gitOkEmpty ["r", "a.py"] = Except.ok "" :=
  (get_git_diff_degrades gitOkEmpty ["r", "a.py"] (by simp [gitOkEmpty])).2.1 rfl

/-! ### Helper lemmas on the ancestor walk -/

/-- A directory equals its own parent exactly at the filesystem root. -/
theorem parentDir_eq_self_iff (p : FsPath) : parentDir p = p ↔ p = [] := by
  constructor
  · intro h
    by_contra hne
    have hlen := congrArg List.length h
    simp only [parentDir, List.length_dropLast] at hlen
    have : 0 < p.length := List.length_pos.mpr hne
    omega
  · intro h
    simp [parentDir, h]

/-- The parent is never longer than the directory itself. -/
theorem parentDir_length_le (p : FsPath) : (parentDir p).length ≤ p.length := by
  simp only [parentDir, List.length_dropLast]
  omega

/-- Unfolding `ancestorsBelowRoot` at the filesystem root. -/
theorem ancestorsBelowRoot_root (p : FsPath) (h : parentDir p = p) :
    ancestorsBelowRoot p = [] := by
  rw [ancestorsBelowRoot]
  simp [h]

/-- Unfolding `ancestorsBelowRoot` below the filesystem root. -/
theorem ancestorsBelowRoot_step (p : FsPath) (h : ¬ parentDir p = p) :
    ancestorsBelowRoot p = p :: ancestorsBelowRoot (parentDir p) := by
  rw [ancestorsBelowRoot]
  simp [h]

/-- Unfolding `find_gitignore` at the filesystem root. -/
theorem find_gitignore_root (fs : FS) (p : FsPath) (h : parentDir p = p) :
    find_gitignore fs p = none := by
  rw [find_gitignore]
  simp [h]

/-- Unfolding `find_gitignore` when the current directory has a
`.gitignore`. -/
theorem find_gitignore_hit (fs : FS) (p : FsPath) (h : ¬ parentDir p = p)
    (hf : fs.isFile (p ++ [".gitignore"]) = true) :
    find_gitignore fs p = some (p ++ [".gitignore"]) := by
  rw [find_gitignore]
  simp [h, hf]

/-- Unfolding `find_gitignore` when the current directory has no
`.gitignore`. -/
theorem find_gitignore_miss (fs : FS) (p : FsPath) (h : ¬ parentDir p = p)
    (hf : ¬ fs.isFile (p ++ [".gitignore"]) = true) :
    find_gitignore fs p = find_gitignore fs (parentDir p) := by
  rw [find_gitignore]
  simp [h, hf]

/-- Every examined ancestor is at most as deep as the start directory. -/
theorem mem_ancestorsBelowRoot_length_le (p : FsPath) :
    ∀ a ∈ ancestorsBelowRoot p, a.length ≤ p.length := by
  refine ancestorsBelowRoot.induct (fun q => ∀ a ∈ ancestorsBelowRoot q, a.length ≤ q.length)
    ?_ ?_ p
  · intro x hx a ha
    rw [ancestorsBelowRoot_root x hx] at ha
    simp at ha
  · intro x hx ih a ha
    rw [ancestorsBelowRoot_step x hx] at ha
    rcases List.mem_cons.mp ha with h | h
    · exact h ▸ le_refl _
    · exact le_trans (ih a h) (parentDir_length_le x)

/-! ### Claims C10 and C7: termination and nearest-wins of the walk -/

/-- Claim C10: the upward walk of `find_gitignore` terminates for every
input: the stop test "directory equals its own parent" holds exactly at
the filesystem root, and an iteration budget larger than the path's
depth always suffices for the fueled loop to finish with the walk's
result. -/
theorem find_gitignore_loop_terminates :
    (∀ p : FsPath, parentDir p = p ↔ p = [])
    ∧ ∀ (fs : FS) (fuel : Nat) (p : FsPath), p.length < fuel →
        find_gitignore_fuel fs fuel p = some (find_gitignore fs p) := by
  refine ⟨parentDir_eq_self_iff, fun fs fuel => ?_⟩
  induction fuel with
  | zero => intro p h; omega
  | succ n ih =>
    intro p h
    by_cases h1 : parentDir p = p
    · rw [find_gitignore_root fs p h1]
      simp [find_gitignore_fuel, h1]
    · by_cases h2 : fs.isFile (p ++ [".gitignore"]) = true
      · rw [find_gitignore_hit fs p h1 h2]
        simp [find_gitignore_fuel, h1, h2]
      · rw [find_gitignore_miss fs p h1 h2]
        have hne : p ≠ [] := fun hnil => h1 (by simp [parentDir, hnil])
        have hlen : (parentDir p).length < n := by
          simp only [parentDir, List.length_dropLast]
          have : 0 < p.length := List.length_pos.mpr hne
          omega
        simp only [find_gitignore_fuel, h1, if_false, h2]
        exact ih (parentDir p) hlen

/-- Witness for claim C10 at a concrete path and budget. -/
theorem find_gitignore_loop_terminates_witness :
    find_gitignore_fuel fsW 2 ["x"] = some (find_gitignore fsW ["x"]) :=
  find_gitignore_loop_terminates.2 fsW 2 ["x"] (by decide)

/-- A filesystem whose only `.gitignore` sits in the filesystem root
directory itself. -/
def fsRootGi : FS := ⟨[([".gitignore"], "*.log")], [[], ["a"]]⟩

/-- Counterexample to claim C7: the walk never examines the filesystem
root itself, so a `.gitignore` living there is not found — the result is
absent even though an ancestor up to and including the root contains
one. -/
theorem find_gitignore_skips_filesystem_root :
    fsRootGi.isFile [".gitignore"] = true
    ∧ find_gitignore fsRootGi ["a"] = none := by
  refine ⟨by decide, ?_⟩
  rw [find_gitignore_miss fsRootGi ["a"] (by decide) (by decide)]
  exact find_gitignore_root fsRootGi (parentDir ["a"]) (by decide)

/-- Claim C7 as amended: over the ancestors strictly below the
filesystem root (the start directory included, the root itself never
examined), `find_gitignore` returns absent exactly when none of them
contains a `.gitignore`, and otherwise returns the `.gitignore` of an
examined ancestor at least as close as any other that contains one
(nearest wins). -/
theorem find_gitignore_nearest_below_root (fs : FS) (p : FsPath) :
    (find_gitignore fs p = none ↔
      ∀ a ∈ ancestorsBelowRoot p, fs.isFile (a ++ [".gitignore"]) = false)
    ∧ ∀ a, a ∈ ancestorsBelowRoot p → fs.isFile (a ++ [".gitignore"]) = true →
        ∃ b, b ∈ ancestorsBelowRoot p ∧ fs.isFile (b ++ [".gitignore"]) = true ∧
          a.length ≤ b.length ∧ find_gitignore fs p = some (b ++ [".gitignore"]) := by
  refine find_gitignore.induct fs (fun q =>
    (find_gitignore fs q = none ↔
      ∀ a ∈ ancestorsBelowRoot q, fs.isFile (a ++ [".gitignore"]) = false)
    ∧ ∀ a, a ∈ ancestorsBelowRoot q → fs.isFile (a ++ [".gitignore"]) = true →
        ∃ b, b ∈ ancestorsBelowRoot q ∧ fs.isFile (b ++ [".gitignore"]) = true ∧
          a.length ≤ b.length ∧ find_gitignore fs q = some (b ++ [".gitignore"]))
    ?_ ?_ ?_ p
  · intro x hx
    rw [find_gitignore_root fs x hx, ancestorsBelowRoot_root x hx]
    constructor
    · simp
    · intro a ha
      simp at ha
  · intro x hx hf
    rw [find_gitignore_hit fs x hx hf, ancestorsBelowRoot_step x hx]
    constructor
    · constructor
      · intro h
        exact absurd h (by simp)
      · intro hall
        have := hall x (List.mem_cons_self x _)
        rw [hf] at this
        cases this
    · intro a ha _
      exact ⟨x, List.mem_cons_self x _, hf,
        mem_ancestorsBelowRoot_length_le x a (ancestorsBelowRoot_step x hx ▸ ha),
        rfl⟩
  · intro x hx hf ih
    rw [find_gitignore_miss fs x hx hf, ancestorsBelowRoot_step x hx]
    have hfx : fs.isFile (x ++ [".gitignore"]) = false := by
      cases hv : fs.isFile (x ++ [".gitignore"])
      · rfl
      · exact absurd hv hf
    constructor
    · rw [ih.1]
      constructor
      · intro hall a ha
        rcases List.mem_cons.mp ha with h | h
        · exact h ▸ hfx
        · exact hall a h
      · intro hall a ha
        exact hall a (List.mem_cons_of_mem x ha)
    · intro a ha hfa
      rcases List.mem_cons.mp ha with h | h
      · rw [h] at hfa
        rw [hfa] at hfx
        cases hfx
      · obtain ⟨b, hb, hfb, hlen, hfind⟩ := ih.2 a h hfa
        exact ⟨b, List.mem_cons_of_mem x hb, hfb, hlen, hfind⟩

/-- Witness for the amended claim C7: from `/r/sub`, the ancestor `/r`
holds a `.gitignore` and the walk returns one at least as close. -/
theorem find_gitignore_nearest_below_root_witness :
    ∃ b, b ∈ ancestorsBelowRoot ["r", "sub"]
      ∧ fsW.isFile (b ++ [".gitignore"]) = true
      ∧ (["r"] : FsPath).length ≤ b.length
      ∧ find_gitignore fsW ["r", "sub"] = some (b ++ [".gitignore"]) :=
  (find_gitignore_nearest_below_root fsW ["r", "sub"]).2 ["r"]
    (by rw [ancestorsBelowRoot_step _ (by decide), ancestorsBelowRoot_step _ (by decide)]
        simp [parentDir])
    (by decide)

/-! ### Claim C1: gitignore patterns in the compiled spec -/

/-- Claim C1 (evidence for the code bug): a `.gitignore` exists at the
scan root and filters to the non-blank, non-comment lines
`["*.log", "build/"]`, yet with the default `verbose = false` the
compiled spec is only defaults, directory patterns and caller patterns —
line 56's `find_gitignore(path) if verbose else None` skips the search;
with `verbose = true` the gitignore lines are appended after the caller
patterns exactly as the claim states. -/
theorem get_gitignore_spec_skips_gitignore_by_default :
    find_gitignore fsW ["r"] = some ["r", ".gitignore"]
    ∧ gitignoreLines (fsW.readText ["r", ".gitignore"]) = ["*.log", "build/"]
    ∧ get_gitignore_spec regW fsW ["r"] ["extra"] false
        = ["*.pyc", "node_modules/", "extra"]
    ∧ get_gitignore_spec regW fsW ["r"] ["extra"] true
        = ["*.pyc", "node_modules/", "extra", "*.log", "build/"] := by
  have h1 : find_gitignore fsW ["r"] = some ["r", ".gitignore"] :=
    find_gitignore_hit fsW ["r"] (by decide) (by decide)
  refine ⟨h1, by decide, by decide, ?_⟩
  unfold get_gitignore_spec
  rw [if_pos rfl, h1]
  decide

/-! ### Helper lemmas on the per-entry scan loop -/

/-- Reduction of an `Except` bind on a returned value. -/
theorem exceptBind_ok {α β ε : Type} (a : α) (f : α → Except ε β) :
    (Except.ok a >>= f) = f a := rfl

/-- Reduction of an `Except` bind on a raised error. -/
theorem exceptBind_error {α β ε : Type} (e : ε) (f : α → Except ε β) :
    ((Except.error e : Except ε α) >>= f) = Except.error e := rfl

/-- The `get_file_content` either returns, or fails with the uncaught
`FileNotFoundError` of a missing git binary. -/
theorem get_file_content_ok_or_fnf (fs : FS) (genv : GitEnv) (p : FsPath) (m : DiffMode) :
    (∃ o, get_file_content fs genv p m = .ok o)
    ∨ get_file_content fs genv p m = .error .fileNotFoundError := by
  unfold get_file_content get_git_diff
  by_cases hm : m = .full
  · exact Or.inl ⟨_, by rw [if_pos hm]⟩
  · rw [if_neg hm]
    cases genv.run p with
    | ok d =>
      simp only [exceptBind_ok]
      refine Or.inl ?_
      split
      · exact ⟨_, rfl⟩
      · split
        · exact ⟨_, rfl⟩
        · exact ⟨_, rfl⟩
    | calledProcessError =>
      simp only [exceptBind_ok]
      refine Or.inl ?_
      split
      · exact ⟨_, rfl⟩
      · split
        · exact ⟨_, rfl⟩
        · exact ⟨_, rfl⟩
    | binaryMissing => exact Or.inr rfl

/-- When the git invocation for the path returns, `get_file_content`
never fails. -/
theorem get_file_content_ok_of_returning (fs : FS) (genv : GitEnv) (p : FsPath) (m : DiffMode)
    (h : genv.run p ≠ .binaryMissing) :
    ∃ o, get_file_content fs genv p m = .ok o := by
  unfold get_file_content get_git_diff
  by_cases hm : m = .full
  · exact ⟨_, by rw [if_pos hm]⟩
  · rw [if_neg hm]
    cases hg : genv.run p with
    | ok d =>
      simp only [exceptBind_ok]
      split
      · exact ⟨_, rfl⟩
      · split
        · exact ⟨_, rfl⟩
        · exact ⟨_, rfl⟩
    | calledProcessError =>
      simp only [exceptBind_ok]
      split
      · exact ⟨_, rfl⟩
      · split
        · exact ⟨_, rfl⟩
        · exact ⟨_, rfl⟩
    | binaryMissing => exact absurd hg h

/-- Every entry the scan loop keeps passed the extension filter and the
exclusion-spec filter on its root-relative path. -/
theorem scanFiles_mem (env : ScanEnv) (abs_path : FsPath) (include_set spec : List String)
    (diff_mode : DiffMode) :
    ∀ (entries : List FsPath) (res : List (FsPath × Option String)),
      scanFiles env abs_path include_set spec diff_mode entries = .ok res →
      ∀ p c, (p, c) ∈ res →
        include_set.contains (toLowerStr (pathSuffix p)) = true
        ∧ ∃ rel, relativeTo p abs_path = some rel
            ∧ env.matchFile spec (pathStr rel) = false := by
  intro entries
  induction entries with
  | nil =>
    intro res h p c hmem
    simp only [scanFiles] at h
    injection h with h'
    subst h'
    simp at hmem
  | cons fp rest ih =>
    intro res h p c hmem
    rw [scanFiles] at h
    by_cases h1 : ¬ env.fs.isFile fp = true
    · rw [if_pos h1] at h
      exact ih res h p c hmem
    · rw [if_neg h1] at h
      cases hrel : relativeTo fp abs_path with
      | none =>
        simp only [hrel] at h
        exact ih res h p c hmem
      | some rel =>
        simp only [hrel] at h
        by_cases h2 : env.matchFile spec (pathStr rel) = true
        · rw [if_pos h2] at h
          exact ih res h p c hmem
        · rw [if_neg h2] at h
          by_cases h3 : ¬ include_set.contains (toLowerStr (pathSuffix fp)) = true
          · rw [if_pos h3] at h
            exact ih res h p c hmem
          · rw [if_neg h3] at h
            cases hgc : get_file_content env.fs env.git fp diff_mode with
            | error e =>
              rw [hgc] at h
              simp [Except.instMonad, Except.bind] at h
            | ok content =>
              rw [hgc] at h
              cases hsf : scanFiles env abs_path include_set spec diff_mode rest with
              | error e =>
                rw [hsf] at h
                simp [Except.instMonad, Except.bind] at h
              | ok tail =>
                rw [hsf] at h
                simp only [Except.instMonad, Except.bind] at h
                cases content with
                | none =>
                  injection h with h'
                  subst h'
                  exact ih tail hsf p c hmem
                | some cc =>
                  injection h with h'
                  subst h'
                  rcases List.mem_cons.mp hmem with hhead | htail
                  · have hp : p = fp := congrArg Prod.fst hhead
                    subst hp
                    refine ⟨not_not.mp h3, rel, hrel, ?_⟩
                    cases hv : env.matchFile spec (pathStr rel)
                    · rfl
                    · exact absurd hv h2
                  · exact ih tail hsf p c htail

/-! ### Claim C2: the scan's filter invariant -/

/-- Claim C2: for a directory root, every entry of a successful scan has
its lowercase extension in the normalized include set (each extension
with a leading dot, defaults when the caller gave none) and a
root-relative path that the compiled exclusion spec does not match. -/
theorem scan_directory_filter_invariant (reg : PatternRegistry) (env : ScanEnv)
    (path : FsPath) (include_exts exclude_patterns : List String) (diff_mode : DiffMode)
    (verbose : Bool) (res : List (FsPath × Option String))
    (hfile : env.fs.isFile path = false)
    (hok : scan_directory reg env path include_exts exclude_patterns diff_mode verbose
      = .ok res) :
    ∀ p c, (p, c) ∈ res →
      (normalizeInclude reg include_exts).contains (toLowerStr (pathSuffix p)) = true
      ∧ ∃ rel, relativeTo p path = some rel
          ∧ env.matchFile (get_gitignore_spec reg env.fs path exclude_patterns verbose)
              (pathStr rel) = false := by
  intro p c hmem
  simp only [scan_directory] at hok
  rw [if_neg (by simp [hfile])] at hok
  by_cases hdir : env.fs.isDir path = true
  · rw [if_neg (by simp [hdir])] at hok
    exact scanFiles_mem env path _ _ diff_mode _ res hok p c hmem
  · rw [if_pos (by simp [hdir])] at hok
    exact absurd hok (by simp)

/-- Witness for claim C2: the one file surviving a concrete scan indeed
passes both filters. -/
theorem scan_directory_filter_invariant_witness :
    (normalizeInclude regW ["py"]).contains (toLowerStr (pathSuffix ["r", "a.py"])) = true
    ∧ ∃ rel, relativeTo ["r", "a.py"] ["r"] = some rel
        ∧ envW.matchFile (get_gitignore_spec regW fsW ["r"] [] false) (pathStr rel) = false :=
  scan_directory_filter_invariant regW envW ["r"] ["py"] [] .full false
    [(["r", "a.py"], some "print(1)")] (by decide) rfl
    ["r", "a.py"] (some "print(1)") (by simp)

/-! ### Claim C6: the single-file root branch -/

/-- A filesystem whose scan root is the single file `/f.py`. -/
def fsFileRoot : FS := ⟨[(["f.py"], "x")], [[]]⟩

/-- A scan environment over `fsFileRoot`. -/
def envFileRoot : ScanEnv := ⟨fsFileRoot, gitOkEmpty, fun _ _ => false⟩

/-- Counterexample to claim C6: for a file root that passes the
extension filter the mapping's value is `None`, not the content the
diff-mode engine resolves — here the engine would resolve the full text
`"x"`. -/
theorem scan_directory_file_root_value_is_none :
    scan_directory regW envFileRoot ["f.py"] [] [] .full false = .ok [(["f.py"], none)]
    ∧ get_file_content fsFileRoot gitOkEmpty ["f.py"] .full = .ok (some "x")
    ∧ some "x" ≠ (none : Option String) :=
  ⟨rfl, rfl, by simp⟩

/-- Claim C6 as amended: for a file root only the extension filter runs,
against the raw caller-supplied include list and the dot-stripped
suffix; when it fails the result is empty, and otherwise the result maps
the path to `None` — the diff-mode engine is not invoked. -/
theorem scan_directory_file_root (reg : PatternRegistry) (env : ScanEnv) (path : FsPath)
    (include_exts exclude_patterns : List String) (diff_mode : DiffMode) (verbose : Bool)
    (hfile : env.fs.isFile path = true) :
    (include_exts ≠ [] → ¬ include_exts.contains (lstripDots (pathSuffix path)) = true →
      scan_directory reg env path include_exts exclude_patterns diff_mode verbose = .ok [])
    ∧ ((include_exts = [] ∨ include_exts.contains (lstripDots (pathSuffix path)) = true) →
      scan_directory reg env path include_exts exclude_patterns diff_mode verbose
        = .ok [(path, none)]) := by
  constructor
  · intro hne hnc
    simp only [scan_directory, hfile, if_true]
    rw [if_pos ⟨hne, hnc⟩]
  · intro hor
    simp only [scan_directory, hfile, if_true]
    rw [if_neg ?_]
    rintro ⟨hne, hnc⟩
    rcases hor with h | h
    · exact hne h
    · exact hnc h

/-- Witness for the amended claim C6: a matching single-file root maps
to `None` even in a diff mode, without consulting git. -/
theorem scan_directory_file_root_witness :
    scan_directory regW envFileRoot ["f.py"] ["py"] [] .diff_only false
      = .ok [(["f.py"], none)] :=
  (scan_directory_file_root regW envFileRoot ["f.py"] ["py"] [] .diff_only false
    (by decide)).2 (Or.inr (by decide))

/-! ### Claim C8: error surface of the scan -/

/-- The only error `get_file_content` can raise is the uncaught
`FileNotFoundError`. -/
theorem get_file_content_error_fnf (fs : FS) (genv : GitEnv) (p : FsPath) (m : DiffMode)
    (e : PyError) (h : get_file_content fs genv p m = .error e) :
    e = .fileNotFoundError := by
  rcases get_file_content_ok_or_fnf fs genv p m with ⟨o, ho⟩ | hf
  · rw [ho] at h
    exact absurd h (by simp)
  · rw [hf] at h
    injection h with h'
    exact h'.symm

/-- The only error the per-entry loop can raise is the uncaught
`FileNotFoundError`. -/
theorem scanFiles_error_fnf (env : ScanEnv) (abs_path : FsPath)
    (include_set spec : List String) (diff_mode : DiffMode) :
    ∀ (entries : List FsPath) (e : PyError),
      scanFiles env abs_path include_set spec diff_mode entries = .error e →
      e = .fileNotFoundError := by
  intro entries
  induction entries with
  | nil =>
    intro e h
    simp only [scanFiles] at h
    exact absurd h (by simp)
  | cons fp rest ih =>
    intro e h
    rw [scanFiles] at h
    by_cases h1 : ¬ env.fs.isFile fp = true
    · rw [if_pos h1] at h
      exact ih e h
    · rw [if_neg h1] at h
      cases hrel : relativeTo fp abs_path with
      | none =>
        simp only [hrel] at h
        exact ih e h
      | some rel =>
        simp only [hrel] at h
        by_cases h2 : env.matchFile spec (pathStr rel) = true
        · rw [if_pos h2] at h
          exact ih e h
        · rw [if_neg h2] at h
          by_cases h3 : ¬ include_set.contains (toLowerStr (pathSuffix fp)) = true
          · rw [if_pos h3] at h
            exact ih e h
          · rw [if_neg h3] at h
            cases hgc : get_file_content env.fs env.git fp diff_mode with
            | error e' =>
              rw [hgc, exceptBind_error] at h
              injection h with h'
              exact h' ▸ get_file_content_error_fnf env.fs env.git fp diff_mode e' hgc
            | ok content =>
              rw [hgc, exceptBind_ok] at h
              cases hsf : scanFiles env abs_path include_set spec diff_mode rest with
              | error e' =>
                rw [hsf, exceptBind_error] at h
                injection h with h'
                exact h' ▸ ih e' hsf
              | ok tail =>
                rw [hsf, exceptBind_ok] at h
                cases content with
                | none => exact absurd h (by simp)
                | some cc => exact absurd h (by simp)

/-- When every git invocation returns, the per-entry loop never
fails. -/
theorem scanFiles_ok_of_returning (env : ScanEnv) (abs_path : FsPath)
    (include_set spec : List String) (diff_mode : DiffMode)
    (hgit : ∀ q, env.git.run q ≠ .binaryMissing) :
    ∀ entries : List FsPath,
      ∃ res, scanFiles env abs_path include_set spec diff_mode entries = .ok res := by
  intro entries
  induction entries with
  | nil => exact ⟨[], by simp [scanFiles]⟩
  | cons fp rest ih =>
    obtain ⟨tail, htail⟩ := ih
    rw [scanFiles]
    by_cases h1 : ¬ env.fs.isFile fp = true
    · rw [if_pos h1]
      exact ⟨tail, htail⟩
    · rw [if_neg h1]
      cases hrel : relativeTo fp abs_path with
      | none =>
        simp only [hrel]
        exact ⟨tail, htail⟩
      | some rel =>
        simp only [hrel]
        by_cases h2 : env.matchFile spec (pathStr rel) = true
        · rw [if_pos h2]
          exact ⟨tail, htail⟩
        · rw [if_neg h2]
          by_cases h3 : ¬ include_set.contains (toLowerStr (pathSuffix fp)) = true
          · rw [if_pos h3]
            exact ⟨tail, htail⟩
          · rw [if_neg h3]
            obtain ⟨o, ho⟩ :=
              get_file_content_ok_of_returning env.fs env.git fp diff_mode (hgit fp)
            rw [ho, exceptBind_ok, htail, exceptBind_ok]
            cases o with
            | none => exact ⟨tail, rfl⟩
            | some cc => exact ⟨(fp, some cc) :: tail, rfl⟩

/-- A scan environment over a directory root whose git binary is
absent. -/
def envGitless : ScanEnv := ⟨fsW, gitMissing, fun _ _ => false⟩

/-- Counterexample to claim C8: the root `/r` is a directory, yet the
scan surfaces an error — the `FileNotFoundError` of the absent git
binary propagating out of the per-file diff retrieval in a diff mode. -/
theorem scan_directory_error_despite_dir_root :
    fsW.isDir ["r"] = true
    ∧ scan_directory regW envGitless ["r"] ["py"] [] .diff_only false
        = .error .fileNotFoundError :=
  ⟨rfl, rfl⟩

/-- Claim C8 as amended: the scan raises `ValueError` exactly when the
root is neither a file nor a directory; and whenever every git
invocation returns (the binary is present), a valid root always yields a
returned mapping — in particular a scan in which zero files pass the
filters returns the empty mapping rather than raising. -/
theorem scan_directory_invalid_root (reg : PatternRegistry) (env : ScanEnv) (path : FsPath)
    (include_exts exclude_patterns : List String) (diff_mode : DiffMode) (verbose : Bool) :
    ((∃ m, scan_directory reg env path include_exts exclude_patterns diff_mode verbose
        = .error (.valueError m))
      ↔ (env.fs.isFile path = false ∧ env.fs.isDir path = false))
    ∧ ((∀ q, env.git.run q ≠ .binaryMissing) →
        (env.fs.isFile path = true ∨ env.fs.isDir path = true) →
        ∃ res, scan_directory reg env path include_exts exclude_patterns diff_mode verbose
          = .ok res) := by
  constructor
  · constructor
    · rintro ⟨m, hm⟩
      by_cases hfile : env.fs.isFile path = true
      · exfalso
        simp only [scan_directory] at hm
        rw [if_pos hfile] at hm
        by_cases hc : include_exts ≠ [] ∧ ¬ include_exts.contains (lstripDots (pathSuffix path)) = true
        · rw [if_pos hc] at hm
          exact absurd hm (by simp)
        · rw [if_neg hc] at hm
          exact absurd hm (by simp)
      · refine ⟨by simpa using hfile, ?_⟩
        by_cases hdir : env.fs.isDir path = true
        · exfalso
          simp only [scan_directory] at hm
          rw [if_neg hfile, if_neg (by simp [hdir])] at hm
          have := scanFiles_error_fnf env path (normalizeInclude reg include_exts)
            (get_gitignore_spec reg env.fs path exclude_patterns verbose) diff_mode
            (env.fs.entriesUnder path) (.valueError m) hm
          exact absurd this (by simp)
        · simpa using hdir
    · rintro ⟨hfile, hdir⟩
      refine ⟨"Path /" ++ pathStr path ++ " is not a directory", ?_⟩
      simp only [scan_directory]
      rw [if_neg (by simp [hfile]), if_pos (by simp [hdir])]
  · intro hgit hvalid
    by_cases hfile : env.fs.isFile path = true
    · simp only [scan_directory]
      rw [if_pos hfile]
      by_cases hc : include_exts ≠ [] ∧ ¬ include_exts.contains (lstripDots (pathSuffix path)) = true
      · rw [if_pos hc]
        exact ⟨[], rfl⟩
      · rw [if_neg hc]
        exact ⟨[(path, none)], rfl⟩
    · have hdir : env.fs.isDir path = true := by
        rcases hvalid with h | h
        · exact absurd h hfile
        · exact h
      obtain ⟨res, hres⟩ := scanFiles_ok_of_returning env path
        (normalizeInclude reg include_exts)
        (get_gitignore_spec reg env.fs path exclude_patterns verbose) diff_mode hgit
        (env.fs.entriesUnder path)
      refine ⟨res, ?_⟩
      simp only [scan_directory]
      rw [if_neg hfile, if_neg (by simp [hdir])]
      exact hres

/-- Witness for the amended claim C8: a directory scan in which zero
files pass still returns, and concretely returns the empty mapping. -/
theorem scan_directory_invalid_root_witness :
    (∃ res, scan_directory regW envW ["r", "sub"] ["py"] [] .full false = .ok res)
    ∧ scan_directory regW envW ["r", "sub"] ["py"] [] .full false = .ok [] :=
  ⟨(scan_directory_invalid_root regW envW ["r", "sub"] ["py"] [] .full false).2
      (fun q h => by exact absurd h (by simp [envW, gitOkEmpty]))
      (Or.inr (by decide)),
    rfl⟩

/-! ### Claim C9: path resolution (modelled from the spec) -/

/-- Claim C9: resolution processes inputs in order, concatenating each
input's contribution (so nothing is deduplicated across patterns): a
literal input contributes exactly `base / path` for every filesystem —
no existence check; a wildcard input contributes exactly the entries
under `base` whose base-relative path the glob matches, and contributes
nothing, without error, when nothing matches. -/
theorem resolve_paths_spec (fs : FS) (base : FsPath) (s : String) (rest : List String) :
    resolve_paths fs (s :: rest) base
      = (if is_glob_pattern s then globExpand fs base s else [base ++ splitSlash s])
        ++ resolve_paths fs rest base
    ∧ (is_glob_pattern s = false →
        resolve_paths fs [s] base = [base ++ splitSlash s])
    ∧ (is_glob_pattern s = true → ∀ q,
        q ∈ resolve_paths fs [s] base ↔
          q ∈ fs.entriesUnder base
            ∧ globPathMatch (splitSlash s) (q.drop base.length) = true)
    ∧ (is_glob_pattern s = true →
        (∀ q ∈ fs.entriesUnder base,
          globPathMatch (splitSlash s) (q.drop base.length) = false) →
        resolve_paths fs [s] base = []) := by
  refine ⟨?_, ?_, ?_, ?_⟩
  · simp [resolve_paths, List.flatMap_cons]
  · intro h
    simp [resolve_paths, h]
  · intro h q
    simp only [resolve_paths, List.flatMap_cons, List.flatMap_nil, List.append_nil, h,
      if_true, globExpand]
    exact List.mem_filter
  · intro h hnone
    simp only [resolve_paths, List.flatMap_cons, List.flatMap_nil, List.append_nil, h,
      if_true, globExpand]
    refine List.filter_eq_nil_iff.mpr ?_
    intro q hq
    simp [hnone q hq]

/-- The tree of spec Scenario 4: `test1.py` at the root, `src/main.py`
and `src/util.js` nested. -/
def fsScenario4 : FS :=
  ⟨[(["test1.py"], ""), (["src", "main.py"], ""), (["src", "util.js"], "")],
   [[], ["src"]]⟩

/-- Witness for claim C9: a literal input resolves to `base / path` even
though no such file exists, and the glob `**/*.py` over the Scenario 4
tree keeps exactly the two `.py` files. -/
theorem resolve_paths_spec_witness :
    resolve_paths fsScenario4 ["nope.txt"] [] = [["nope.txt"]]
    ∧ (["src", "main.py"] ∈ resolve_paths fsScenario4 ["**/*.py"] []
        ↔ ["src", "main.py"] ∈ fsScenario4.entriesUnder []
            ∧ globPathMatch (splitSlash "**/*.py") (["src", "main.py"].drop 0) = true) :=
  ⟨((resolve_paths_spec fsScenario4 [] "nope.txt" []).2.1 (by decide)).trans (by decide),
   (resolve_paths_spec fsScenario4 [] "**/*.py" []).2.2.1 (by decide) ["src", "main.py"]⟩
